import Mathlib

/-!
Verification of the toy compiler front-end: lexical scanner (src/lexer.cpp),
recursive-descent parser (src/parsers.cpp) and the lowering pass interface
(src/codegen.hpp), shallowly embedded in Lean 4.

The source string is modelled as a list of characters indexed by a natural
number position, exactly mirroring the C++ std::string plus size_t pos pair.
C++ reads of source at its one-past-end index hit std::string's defined null
terminator; the embedding makes that read explicit by stopping the scanning
loops when the remaining character list is empty (the probe of the terminator
is still recorded in the instrumented read list).
-/

/-- Models isdigit from cctype in the C locale: the decimal digits 0 to 9
occupy codes 48 to 57. -/
def isdigitC (c : Char) : Bool := 48 ≤ c.toNat && c.toNat ≤ 57

/-- Models isalpha from cctype in the C locale: uppercase letters occupy
codes 65 to 90 and lowercase letters codes 97 to 122. -/
def isalphaC (c : Char) : Bool :=
  (65 ≤ c.toNat && c.toNat ≤ 90) || (97 ≤ c.toNat && c.toNat ≤ 122)

/-- Models isalnum from cctype in the C locale: a letter or a digit. -/
def isalnumC (c : Char) : Bool := isalphaC c || isdigitC c

/-- Models isspace from cctype in the C locale: space (32), tab (9),
newline (10), vertical tab (11), form feed (12), carriage return (13). -/
def isspaceC (c : Char) : Bool := c.toNat = 32 || (9 ≤ c.toNat && c.toNat ≤ 13)

/-- The token kinds of the scanner, mirroring enum class TokenType in
src/lexer.hpp constructor for constructor. -/
inductive TokenType where
  | INT
  | RETURN
  | IF
  | ELSE
  | WHILE
  | IDENTIFIER
  | NUMBER
  | OPERATOR
  | PAREN_OPEN
  | PAREN_CLOSE
  | BRACE_OPEN
  | BRACE_CLOSE
  | SEMICOLON
  | END
deriving DecidableEq, Repr

/-- A token, mirroring struct Token in src/lexer.hpp: a kind and the string
value it was scanned from. -/
structure Token where
  type : TokenType
  value : String
deriving DecidableEq, Repr

/-- Models the whitespace-skipping loop of Lexer::getNextToken
(while pos is less than the length and isspace holds at pos, increment pos).
The first argument is the source suffix starting at the current position,
the second the current position; the result is the position after the run of
whitespace together with the list of indices the loop probed. The loop guard
checks the length bound before reading, so the end of input is never probed
here. -/
def skipWSAux : List Char → Nat → Nat × List Nat
  | [], pos => (pos, [])
  | c :: rest, pos =>
    if isspaceC c then
      let r := skipWSAux rest (pos + 1)
      (r.1, pos :: r.2)
    else (pos, [pos])

/-- Models the greedy scanning loops of Lexer::getNextToken
(while the predicate holds at pos, append the character and increment pos).
The C++ loop condition reads the source unguarded; at one past the end it
reads std::string's null terminator, for which both isdigit and isalnum are
false, so the loop stops there. Accordingly the empty-suffix case stops and
still records the probe of the terminator position. Returns the consumed
characters, the final position, and the probed indices. -/
def scanAux (q : Char → Bool) : List Char → Nat → List Char × Nat × List Nat
  | [], pos => ([], pos, [pos])
  | c :: rest, pos =>
    if q c then
      let r := scanAux q rest (pos + 1)
      (c :: r.1, r.2.1, pos :: r.2.2)
    else ([], pos, [pos])

/-- The scanner state, mirroring class Lexer in src/lexer.hpp: the source
string and the current position. -/
structure Lexer where
  source : List Char
  pos : Nat
deriving DecidableEq, Repr

/-- Models Lexer::getNextToken from src/lexer.cpp, instrumented: returns the
token, the updated position, and the list of source indices read during the
call. Control flow mirrors the C++ body line for line: skip whitespace;
return END at end of input; greedy digit run as NUMBER; greedy letter-or
digit run resolved against the keyword table (int and return) else
IDENTIFIER; the four arithmetic characters as OPERATOR with the position
incremented; then the switch on single-character symbols. In the C++ the
pos increment after each of the five symbol cases follows the return
statement and is dead code, so those branches leave the position unchanged,
as does the fall-through default returning END. -/
def Lexer.getNextTokenR (source : List Char) (pos : Nat) : Token × Nat × List Nat :=
  let w := skipWSAux (source.drop pos) pos
  match source.drop w.1 with
  | [] => (⟨TokenType.END, ""⟩, w.1, w.2)
  | current :: _ =>
    if isdigitC current then
      let d := scanAux isdigitC (source.drop w.1) w.1
      (⟨TokenType.NUMBER, String.mk d.1⟩, d.2.1, w.2 ++ w.1 :: d.2.2)
    else if isalphaC current then
      let d := scanAux isalnumC (source.drop w.1) w.1
      let ident := String.mk d.1
      if ident = "int" then (⟨TokenType.INT, ident⟩, d.2.1, w.2 ++ w.1 :: d.2.2)
      else if ident = "return" then (⟨TokenType.RETURN, ident⟩, d.2.1, w.2 ++ w.1 :: d.2.2)
      else (⟨TokenType.IDENTIFIER, ident⟩, d.2.1, w.2 ++ w.1 :: d.2.2)
    else if current = '+' ∨ current = '-' ∨ current = '*' ∨ current = '/' then
      (⟨TokenType.OPERATOR, String.mk [current]⟩, w.1 + 1, w.2 ++ [w.1, w.1])
    else if current = '(' then (⟨TokenType.PAREN_OPEN, "("⟩, w.1, w.2 ++ [w.1])
    else if current = ')' then (⟨TokenType.PAREN_CLOSE, ")"⟩, w.1, w.2 ++ [w.1])
    else if current = '\x7b' then (⟨TokenType.BRACE_OPEN, "\x7b"⟩, w.1, w.2 ++ [w.1])
    else if current = '\x7d' then (⟨TokenType.BRACE_CLOSE, "\x7d"⟩, w.1, w.2 ++ [w.1])
    else if current = ';' then (⟨TokenType.SEMICOLON, ";"⟩, w.1, w.2 ++ [w.1])
    else (⟨TokenType.END, ""⟩, w.1, w.2 ++ [w.1])

/-- Models Lexer::getNextToken as the member function of the lexer state:
returns the token and the lexer with its position updated (the C++ method
mutates pos in place). -/
def Lexer.getNextToken (l : Lexer) : Token × Lexer :=
  let r := Lexer.getNextTokenR l.source l.pos
  (r.1, ⟨l.source, r.2.1⟩)

/-- The result of the k-th successive call to getNextToken after the given
lexer state (k = 0 is the next call). -/
def Lexer.tokenAfter (l : Lexer) : Nat → Token × Lexer
  | 0 => l.getNextToken
  | k + 1 => (l.getNextToken).2.tokenAfter k


/-- The AST node variants used by the parser, mirroring src/ast.hpp as one
closed inductive: NumberExpr, BinaryExpr, IfStatement (optional else
branch) and WhileStatement. Child unique_ptr ownership becomes plain
substructure. The FunctionCall variant of ast.hpp is built by no parser
entry point or lowering step and is omitted. -/
inductive ASTNode where
  | NumberExpr (value : Int)
  | BinaryExpr (left : ASTNode) (op : Char) (right : ASTNode)
  | IfStatement (condition : ASTNode) (thenBranch : ASTNode) (elseBranch : Option ASTNode)
  | WhileStatement (condition : ASTNode) (body : ASTNode)
deriving Repr

/-- The error conditions the parser can raise. Parser::parseExpression calls
std::stoi on the current token's value; malformedExpression models the
std::invalid_argument exception stoi throws when the value holds no digits
(the spec's MalformedExpression condition), and outOfRange models the
std::out_of_range exception stoi throws when the converted value does not
fit in int. -/
inductive ParseError where
  | malformedExpression
  | outOfRange
deriving DecidableEq, Repr

/-- Decimal value of a digit run, most significant first. -/
def digitsVal (ds : List Char) : Nat :=
  ds.foldl (fun a c => a * 10 + (c.toNat - 48)) 0

/-- The optional single leading sign consumed by std::stoi (via strtol):
returns the sign factor and the remaining characters. -/
def signSplit (cs : List Char) : Int × List Char :=
  match cs with
  | c :: rest =>
    if c = '+' then (1, rest)
    else if c = '-' then (-1, rest)
    else (1, cs)
  | [] => (1, cs)

/-- Models std::stoi as called by Parser::parseExpression on a token value:
skip C-locale whitespace, consume one optional sign, then a maximal decimal
digit run. No digits raises std::invalid_argument (malformedExpression); a
value outside int's range, which is 32 bits wide on every platform this
LLVM-based compiler targets, raises std::out_of_range (outOfRange). -/
def stoiTok (s : String) : Except ParseError Int :=
  let cs := s.toList.dropWhile isspaceC
  let sr := signSplit cs
  let ds := sr.2.takeWhile isdigitC
  if ds.isEmpty then Except.error ParseError.malformedExpression
  else
    let v : Int := sr.1 * (digitsVal ds : Int)
    if v < -2147483648 ∨ 2147483647 < v then Except.error ParseError.outOfRange
    else Except.ok v

/-- Models the C++ read currentToken.value[0]: the first character of the
string, or the null terminator that std::string::operator[] yields at index
0 of an empty string. -/
def headChar (s : String) : Char := s.toList.headD '\x00'

/-- The current token of a token stream given as a list: its head, or the
END token the lexer keeps producing once the stream is exhausted. -/
def currentTok : List Token → Token
  | [] => ⟨TokenType.END, ""⟩
  | t :: _ => t

/-- Models Parser::parseExpression from src/parsers.cpp as a function of the
token stream the lexer hands the parser, given as a list (the spec's
pull-based stream, with END tokens after the end). The head of the list
plays currentToken. Mirrors the body: build a NumberExpr from stoi of the
current token's value, advance; if the now current token is an OPERATOR,
take its first character, advance, recursively parse the right operand and
build a BinaryExpr, else return the number alone. The stoi exception
propagates as the error case. -/
def parseExpressionTokens : List Token → Except ParseError (ASTNode × List Token)
  | t :: u :: rest =>
    match stoiTok t.value with
    | Except.error e => Except.error e
    | Except.ok n =>
      if u.type = TokenType.OPERATOR then
        match parseExpressionTokens rest with
        | Except.error e => Except.error e
        | Except.ok (right, ts2) =>
          Except.ok (ASTNode.BinaryExpr (ASTNode.NumberExpr n) (headChar u.value) right, ts2)
      else Except.ok (ASTNode.NumberExpr n, u :: rest)
  | ts =>
    match stoiTok (currentTok ts).value with
    | Except.error e => Except.error e
    | Except.ok n => Except.ok (ASTNode.NumberExpr n, ts.tail)

theorem skipWSAux_fst_le (rem : List Char) (pos : Nat) : pos ≤ (skipWSAux rem pos).1 := by
  induction rem generalizing pos with
  | nil => simp [skipWSAux]
  | cons c rest ih =>
    simp only [skipWSAux]
    split
    · exact le_trans (Nat.le_succ pos) (ih (pos + 1))
    · exact le_refl pos

theorem skipWSAux_fst_le_add (rem : List Char) (pos : Nat) :
    (skipWSAux rem pos).1 ≤ pos + rem.length := by
  induction rem generalizing pos with
  | nil => simp [skipWSAux]
  | cons c rest ih =>
    simp only [skipWSAux]
    split
    · have := ih (pos + 1)
      simp only [List.length_cons]
      omega
    · simp

theorem scanAux_fst_le (q : Char → Bool) (rem : List Char) (pos : Nat) :
    pos ≤ (scanAux q rem pos).2.1 := by
  induction rem generalizing pos with
  | nil => simp [scanAux]
  | cons c rest ih =>
    simp only [scanAux]
    split
    · exact le_trans (Nat.le_succ pos) (ih (pos + 1))
    · exact le_refl pos

theorem scanAux_fst_le_add (q : Char → Bool) (rem : List Char) (pos : Nat) :
    (scanAux q rem pos).2.1 ≤ pos + rem.length := by
  induction rem generalizing pos with
  | nil => simp [scanAux]
  | cons c rest ih =>
    simp only [scanAux]
    split
    · have := ih (pos + 1)
      simp only [List.length_cons]
      omega
    · simp

/-- Exhaustive case analysis of one scanner call: the position never moves
backwards, and the returned token is one of the eleven shapes the body of
Lexer::getNextToken can build. In particular no call ever returns a token
of type IF, ELSE or WHILE; an OPERATOR token carries a single sign
character and strictly advances the position; keyword tokens carry exactly
their keyword; an IDENTIFIER value starts with a letter. -/
theorem getNextTokenR_master (s : List Char) (p : Nat) :
    p ≤ (Lexer.getNextTokenR s p).2.1 ∧
    (((Lexer.getNextTokenR s p).1.type = TokenType.END ∧ (Lexer.getNextTokenR s p).1.value = "")
    ∨ ((Lexer.getNextTokenR s p).1.type = TokenType.NUMBER)
    ∨ ((Lexer.getNextTokenR s p).1.type = TokenType.INT ∧ (Lexer.getNextTokenR s p).1.value = "int")
    ∨ ((Lexer.getNextTokenR s p).1.type = TokenType.RETURN ∧ (Lexer.getNextTokenR s p).1.value = "return")
    ∨ ((Lexer.getNextTokenR s p).1.type = TokenType.IDENTIFIER ∧
        ∃ c cs, (Lexer.getNextTokenR s p).1.value = String.mk (c :: cs) ∧ isalphaC c = true)
    ∨ ((Lexer.getNextTokenR s p).1.type = TokenType.OPERATOR ∧
        (∃ c, (Lexer.getNextTokenR s p).1.value = String.mk [c] ∧
          (c = '+' ∨ c = '-' ∨ c = '*' ∨ c = '/')) ∧
        p < s.length ∧ p < (Lexer.getNextTokenR s p).2.1)
    ∨ ((Lexer.getNextTokenR s p).1.type = TokenType.PAREN_OPEN ∧ (Lexer.getNextTokenR s p).1.value = "(")
    ∨ ((Lexer.getNextTokenR s p).1.type = TokenType.PAREN_CLOSE ∧ (Lexer.getNextTokenR s p).1.value = ")")
    ∨ ((Lexer.getNextTokenR s p).1.type = TokenType.BRACE_OPEN ∧ (Lexer.getNextTokenR s p).1.value = "\x7b")
    ∨ ((Lexer.getNextTokenR s p).1.type = TokenType.BRACE_CLOSE ∧ (Lexer.getNextTokenR s p).1.value = "\x7d")
    ∨ ((Lexer.getNextTokenR s p).1.type = TokenType.SEMICOLON ∧ (Lexer.getNextTokenR s p).1.value = ";")) := by
  have hw := skipWSAux_fst_le (s.drop p) p
  have hs1 := scanAux_fst_le isdigitC (s.drop (skipWSAux (s.drop p) p).1) (skipWSAux (s.drop p) p).1
  have hs2 := scanAux_fst_le isalnumC (s.drop (skipWSAux (s.drop p) p).1) (skipWSAux (s.drop p) p).1
  rcases hr : Lexer.getNextTokenR s p with ⟨t, q, reads⟩
  unfold Lexer.getNextTokenR at hr
  dsimp only at hr
  split at hr
  case _ heq =>
    simp only [Prod.mk.injEq] at hr
    obtain ⟨ht, hq, hrd⟩ := hr
    subst ht hq hrd
    exact ⟨hw, Or.inl ⟨rfl, rfl⟩⟩
  case _ current tail heq =>
    have hlt : (skipWSAux (s.drop p) p).1 < s.length := by
      by_contra hge
      rw [List.drop_eq_nil_of_le (by omega)] at heq
      exact List.noConfusion heq
    split_ifs at hr with h1 h2 h3 h4 h5 h6 h7 h8 h9 h10
    all_goals simp only [Prod.mk.injEq] at hr
    all_goals obtain ⟨ht, hq, hrd⟩ := hr
    all_goals subst ht hq hrd
    all_goals dsimp only
    · exact ⟨le_trans hw hs1, Or.inr (Or.inl rfl)⟩
    · exact ⟨le_trans hw hs2, Or.inr (Or.inr (Or.inl ⟨rfl, h3⟩))⟩
    · exact ⟨le_trans hw hs2, Or.inr (Or.inr (Or.inr (Or.inl ⟨rfl, h4⟩)))⟩
    · refine ⟨le_trans hw hs2, Or.inr (Or.inr (Or.inr (Or.inr (Or.inl ⟨rfl, ?_⟩))))⟩
      have halnum : isalnumC current = true := by simp [isalnumC, h2]
      rw [heq] at hs2 ⊢
      simp only [scanAux, halnum, if_true]
      exact ⟨current, (scanAux isalnumC tail ((skipWSAux (s.drop p) p).1 + 1)).1, rfl, h2⟩
    · exact ⟨by omega,
        Or.inr (Or.inr (Or.inr (Or.inr (Or.inr (Or.inl
          ⟨rfl, ⟨current, rfl, h5⟩, by omega, by omega⟩)))))⟩
    · exact ⟨hw, Or.inr (Or.inr (Or.inr (Or.inr (Or.inr (Or.inr (Or.inl ⟨rfl, rfl⟩))))))⟩
    · exact ⟨hw, Or.inr (Or.inr (Or.inr (Or.inr (Or.inr (Or.inr (Or.inr (Or.inl ⟨rfl, rfl⟩)))))))⟩
    · exact ⟨hw, Or.inr (Or.inr (Or.inr (Or.inr (Or.inr (Or.inr (Or.inr (Or.inr (Or.inl ⟨rfl, rfl⟩))))))))⟩
    · exact ⟨hw, Or.inr (Or.inr (Or.inr (Or.inr (Or.inr (Or.inr (Or.inr (Or.inr (Or.inr (Or.inl ⟨rfl, rfl⟩)))))))))⟩
    · exact ⟨hw, Or.inr (Or.inr (Or.inr (Or.inr (Or.inr (Or.inr (Or.inr (Or.inr (Or.inr (Or.inr ⟨rfl, rfl⟩)))))))))⟩
    · exact ⟨hw, Or.inl ⟨rfl, rfl⟩⟩

theorem getNextTokenR_pos_le (s : List Char) (p : Nat) :
    p ≤ (Lexer.getNextTokenR s p).2.1 :=
  (getNextTokenR_master s p).1

theorem getNextTokenR_operator (s : List Char) (p : Nat)
    (h : (Lexer.getNextTokenR s p).1.type = TokenType.OPERATOR) :
    p < s.length ∧ p < (Lexer.getNextTokenR s p).2.1 := by
  rcases (getNextTokenR_master s p).2 with h1 | h1 | h1 | h1 | h1 | h1 | h1 | h1 | h1 | h1 | h1
  all_goals first
    | (exact ⟨h1.2.2.1, h1.2.2.2⟩)
    | (rw [h] at h1; first | exact absurd h1.1 (by simp) | exact absurd h1 (by simp))

/-- The parser state, mirroring class Parser in src/parser.hpp: the lexer it
drives (held by reference and mutated in C++) and the one-token lookahead
currentToken. -/
structure Parser where
  lexer : Lexer
  currentToken : Token
deriving DecidableEq, Repr

/-- Models the constructor Parser::Parser from src/parsers.cpp: immediately
pulls the first token from the lexer into currentToken. -/
def Parser.init (lex : Lexer) : Parser :=
  ⟨(lex.getNextToken).2, (lex.getNextToken).1⟩

/-- Models the statement currentToken = lexer.getNextToken() that advances
the parser by one token. -/
def Parser.pull (p : Parser) : Parser :=
  ⟨(p.lexer.getNextToken).2, (p.lexer.getNextToken).1⟩

theorem Parser.pull_source (p : Parser) : p.pull.lexer.source = p.lexer.source := rfl

theorem Parser.pull_pos_le (p : Parser) : p.lexer.pos ≤ p.pull.lexer.pos :=
  getNextTokenR_pos_le p.lexer.source p.lexer.pos

theorem Parser.pull_operator (p : Parser)
    (h : p.pull.currentToken.type = TokenType.OPERATOR) :
    p.lexer.pos < p.lexer.source.length ∧ p.lexer.pos < p.pull.lexer.pos :=
  getNextTokenR_operator p.lexer.source p.lexer.pos h

/-- Models Parser::parseExpression from src/parsers.cpp driving the actual
lexer: build a NumberExpr from stoi of currentToken's value (the stoi
exceptions propagate as the error case), advance; if the new currentToken
is an OPERATOR, read its first character, advance and recursively parse the
right operand into a BinaryExpr; otherwise return the number alone.
Terminates because an OPERATOR token strictly advances the lexer position
(theorem getNextTokenR_operator). -/
def Parser.parseExpression (p : Parser) : Except ParseError (ASTNode × Parser) :=
  match stoiTok p.currentToken.value with
  | Except.error e => Except.error e
  | Except.ok n =>
    if h : (Parser.pull p).currentToken.type = TokenType.OPERATOR then
      match Parser.parseExpression (Parser.pull (Parser.pull p)) with
      | Except.error e => Except.error e
      | Except.ok (right, p3) =>
        Except.ok (ASTNode.BinaryExpr (ASTNode.NumberExpr n)
          (headChar (Parser.pull p).currentToken.value) right, p3)
    else Except.ok (ASTNode.NumberExpr n, Parser.pull p)
termination_by p.lexer.source.length - p.lexer.pos
decreasing_by
  have h1 := Parser.pull_operator p h
  have h2 := Parser.pull_pos_le (Parser.pull p)
  have h3 : (Parser.pull (Parser.pull p)).lexer.source = p.lexer.source := rfl
  rw [h3]
  omega

/-- Models Parser::parseIfStatement from src/parsers.cpp: advance past the
assumed if token, parse the condition, advance once more (the unchecked
skip of the opening brace), parse the then branch, and if currentToken is
then an ELSE token parse one more expression as the else branch. -/
def Parser.parseIfStatement (p : Parser) : Except ParseError (ASTNode × Parser) :=
  match Parser.parseExpression (Parser.pull p) with
  | Except.error e => Except.error e
  | Except.ok (condition, p2) =>
    match Parser.parseExpression (Parser.pull p2) with
    | Except.error e => Except.error e
    | Except.ok (thenBranch, p4) =>
      if p4.currentToken.type = TokenType.ELSE then
        match Parser.parseExpression (Parser.pull p4) with
        | Except.error e => Except.error e
        | Except.ok (elseBranch, p6) =>
          Except.ok (ASTNode.IfStatement condition thenBranch (some elseBranch), p6)
      else Except.ok (ASTNode.IfStatement condition thenBranch none, p4)

/-- Models Parser::parseWhileStatement from src/parsers.cpp: advance past
the assumed while token, parse the condition, advance once more (the
unchecked brace skip), and parse exactly one expression as the body. -/
def Parser.parseWhileStatement (p : Parser) : Except ParseError (ASTNode × Parser) :=
  match Parser.parseExpression (Parser.pull p) with
  | Except.error e => Except.error e
  | Except.ok (condition, p2) =>
    match Parser.parseExpression (Parser.pull p2) with
    | Except.error e => Except.error e
    | Except.ok (body, p4) =>
      Except.ok (ASTNode.WhileStatement condition body, p4)

/-- An IR value as produced by the lowering pass: a constant integer or an
arithmetic instruction applied to two previously built IR values. Mirrors
the minimal construction interface the spec requires of the backend
(create integer constant, create binary arithmetic instruction). -/
inductive IRValue where
  | constInt (value : Int)
  | addInst (lhs rhs : IRValue)
deriving Repr

/-- Modelled from the spec: the body of CodeGen::generate is missing from
src (codegen.hpp only declares it and codegen.cpp holds only the JIT
driver). Spec section 4.3: a NumberLiteral lowers to a constant integer IR
value equal to its stored value; a BinaryExpr lowers left then right and
emits one arithmetic instruction, with only the plus operator implemented
by the reference lowering; IfStatement and WhileStatement have no defined
lowering. -/
def CodeGen.generate : ASTNode → Option IRValue
  | ASTNode.NumberExpr n => some (IRValue.constInt n)
  | ASTNode.BinaryExpr l op r =>
    match CodeGen.generate l, CodeGen.generate r with
    | some lv, some rv => if op = '+' then some (IRValue.addInst lv rv) else none
    | _, _ => none
  | _ => none

/-- C7: for every NumberLiteral AST node with stored value n, the lowering
pass produces a constant integer IR value equal to n. The lowering is
modelled from the spec because CodeGen::generate's body is not in the
repository sources. -/
theorem C7_number_literal_lowering (n : Int) :
    CodeGen.generate (ASTNode.NumberExpr n) = some (IRValue.constInt n) := rfl

/-- C7 witness: the lowering evaluated at the literal 42. -/
theorem C7_number_literal_lowering_witness :
    CodeGen.generate (ASTNode.NumberExpr 42) = some (IRValue.constInt 42) :=
  C7_number_literal_lowering 42

/-- C2: the claim that every call returning one of the five symbol tokens
strictly advances the scanner position is refuted by the code: the pos
increment placed after each return statement in the switch of
Lexer::getNextToken is dead code. At each of the five one-symbol sources
the call returns the symbol token and leaves the position at 0. -/
theorem C2_symbol_tokens_do_not_advance :
    Lexer.getNextToken ⟨['('], 0⟩ = (⟨TokenType.PAREN_OPEN, "("⟩, ⟨['('], 0⟩) ∧
    Lexer.getNextToken ⟨[')'], 0⟩ = (⟨TokenType.PAREN_CLOSE, ")"⟩, ⟨[')'], 0⟩) ∧
    Lexer.getNextToken ⟨['\x7b'], 0⟩ = (⟨TokenType.BRACE_OPEN, "\x7b"⟩, ⟨['\x7b'], 0⟩) ∧
    Lexer.getNextToken ⟨['\x7d'], 0⟩ = (⟨TokenType.BRACE_CLOSE, "\x7d"⟩, ⟨['\x7d'], 0⟩) ∧
    Lexer.getNextToken ⟨[';'], 0⟩ = (⟨TokenType.SEMICOLON, ";"⟩, ⟨[';'], 0⟩) := by
  decide

theorem getNextTokenR_at_end (s : List Char) (p : Nat) (h : s.length ≤ p) :
    Lexer.getNextTokenR s p = (⟨TokenType.END, ""⟩, p, []) := by
  have hd : s.drop p = [] := List.drop_eq_nil_of_le h
  unfold Lexer.getNextTokenR
  simp only [hd, skipWSAux]

/-- C5: once the scanner position has reached or passed the end of the
input, every later call returns an END token and leaves the state
unchanged, so END is returned indefinitely; in particular every call on
the empty source returns END. -/
theorem C5_end_of_input_forever :
    (∀ (l : Lexer) (k : Nat), l.source.length ≤ l.pos →
      l.tokenAfter k = (⟨TokenType.END, ""⟩, l)) ∧
    (∀ k : Nat, Lexer.tokenAfter ⟨[], 0⟩ k = (⟨TokenType.END, ""⟩, ⟨[], 0⟩)) := by
  have hstep : ∀ l : Lexer, l.source.length ≤ l.pos →
      l.getNextToken = (⟨TokenType.END, ""⟩, l) := by
    intro l hl
    show (_, (⟨l.source, (Lexer.getNextTokenR l.source l.pos).2.1⟩ : Lexer)) = _
    rw [getNextTokenR_at_end l.source l.pos hl]
  have hmain : ∀ (k : Nat) (l : Lexer), l.source.length ≤ l.pos →
      l.tokenAfter k = (⟨TokenType.END, ""⟩, l) := by
    intro k
    induction k with
    | zero => intro l hl; exact hstep l hl
    | succ k ih =>
      intro l hl
      show (l.getNextToken).2.tokenAfter k = _
      rw [hstep l hl]
      exact ih l hl
  exact ⟨fun l k hl => hmain k l hl, fun k => hmain k ⟨[], 0⟩ (by simp)⟩

/-- C5 witness: a scanner already past the end of a one-character source
keeps answering END on the third call. -/
theorem C5_end_of_input_forever_witness :
    Lexer.tokenAfter ⟨['a'], 5⟩ 2 = (⟨TokenType.END, ""⟩, ⟨['a'], 5⟩) :=
  C5_end_of_input_forever.1 ⟨['a'], 5⟩ 2 (by decide)

theorem skipWSAux_reads_lt (rem : List Char) (pos : Nat) :
    ∀ i ∈ (skipWSAux rem pos).2, i < pos + rem.length := by
  induction rem generalizing pos with
  | nil => simp [skipWSAux]
  | cons c rest ih =>
    simp only [skipWSAux]
    split
    · intro i hi
      simp only [List.mem_cons] at hi
      rcases hi with rfl | hi
      · simp
      · have := ih (pos + 1) i hi
        simp only [List.length_cons]
        omega
    · intro i hi
      simp only [List.mem_singleton] at hi
      subst hi
      simp

theorem scanAux_reads_le (q : Char → Bool) (rem : List Char) (pos : Nat) :
    ∀ i ∈ (scanAux q rem pos).2.2, i ≤ pos + rem.length := by
  induction rem generalizing pos with
  | nil => simp [scanAux]
  | cons c rest ih =>
    simp only [scanAux]
    split
    · intro i hi
      simp only [List.mem_cons] at hi
      rcases hi with rfl | hi
      · simp
      · have := ih (pos + 1) i hi
        simp only [List.length_cons]
        omega
    · intro i hi
      simp only [List.mem_singleton] at hi
      subst hi
      simp

/-- C10: a scanner call started at a position within the source (at most
one past the last character) only ever probes indices up to the source
length, the greedy number and identifier loops included: the only read at
the length itself is the defined null-terminator read of std::string, and
the final position also stays at most the length, so every call terminates
with the token accumulated so far. -/
theorem C10_scanner_reads_in_bounds (s : List Char) (p : Nat) (hp : p ≤ s.length) :
    (∀ i ∈ (Lexer.getNextTokenR s p).2.2, i ≤ s.length) ∧
    (Lexer.getNextTokenR s p).2.1 ≤ s.length := by
  have hw1 := skipWSAux_fst_le (s.drop p) p
  have hw2 := skipWSAux_fst_le_add (s.drop p) p
  have hdl : (s.drop p).length = s.length - p := List.length_drop p s
  have hwr := skipWSAux_reads_lt (s.drop p) p
  have hw2a : (skipWSAux (s.drop p) p).1 ≤ s.length := by omega
  have hwra : ∀ i ∈ (skipWSAux (s.drop p) p).2, i ≤ s.length := by
    intro i hi
    have := hwr i hi
    omega
  rcases hr : Lexer.getNextTokenR s p with ⟨t, q, reads⟩
  unfold Lexer.getNextTokenR at hr
  dsimp only at hr
  split at hr
  case _ heq =>
    simp only [Prod.mk.injEq] at hr
    obtain ⟨ht, hq, hrd⟩ := hr
    subst ht hq hrd
    exact ⟨hwra, hw2a⟩
  case _ current tail heq =>
    have hwlt : (skipWSAux (s.drop p) p).1 < s.length := by
      by_contra hge
      rw [List.drop_eq_nil_of_le (by omega)] at heq
      exact List.noConfusion heq
    have hd2 : (s.drop (skipWSAux (s.drop p) p).1).length
        = s.length - (skipWSAux (s.drop p) p).1 := List.length_drop _ _
    have hs1 := scanAux_reads_le isdigitC (s.drop (skipWSAux (s.drop p) p).1) (skipWSAux (s.drop p) p).1
    have hs1a := scanAux_fst_le_add isdigitC (s.drop (skipWSAux (s.drop p) p).1) (skipWSAux (s.drop p) p).1
    have hs2 := scanAux_reads_le isalnumC (s.drop (skipWSAux (s.drop p) p).1) (skipWSAux (s.drop p) p).1
    have hs2a := scanAux_fst_le_add isalnumC (s.drop (skipWSAux (s.drop p) p).1) (skipWSAux (s.drop p) p).1
    split_ifs at hr
    all_goals simp only [Prod.mk.injEq] at hr
    all_goals obtain ⟨ht, hq, hrd⟩ := hr
    all_goals subst ht hq hrd
    all_goals dsimp only
    all_goals refine ⟨?_, by omega⟩
    all_goals intro i hi
    all_goals simp only [List.mem_append, List.mem_cons, List.not_mem_nil, or_false] at hi
    all_goals first
      | (rcases hi with hi | rfl | hi
         · exact hwra i hi
         · omega
         · first
            | (have hb := hs1 i hi; omega)
            | (have hb := hs2 i hi; omega))
      | (rcases hi with hi | rfl | rfl
         · exact hwra i hi
         · omega
         · omega)
      | (rcases hi with hi | rfl
         · exact hwra i hi
         · omega)

/-- C10 witness: scanning the two-character source 12 from the start probes
only indices up to its length and stops there. -/
theorem C10_scanner_reads_in_bounds_witness :
    (∀ i ∈ (Lexer.getNextTokenR ['1', '2'] 0).2.2, i ≤ (['1', '2'] : List Char).length) ∧
    (Lexer.getNextTokenR ['1', '2'] 0).2.1 ≤ (['1', '2'] : List Char).length :=
  C10_scanner_reads_in_bounds ['1', '2'] 0 (by decide)

/-- One-step unfolding of parseExpressionTokens on a stream of at least two
tokens. -/
theorem parseExpressionTokens_cons_cons (t u : Token) (rest : List Token) :
    parseExpressionTokens (t :: u :: rest) =
      match stoiTok t.value with
      | Except.error e => Except.error e
      | Except.ok n =>
        if u.type = TokenType.OPERATOR then
          match parseExpressionTokens rest with
          | Except.error e => Except.error e
          | Except.ok (right, ts2) =>
            Except.ok (ASTNode.BinaryExpr (ASTNode.NumberExpr n) (headChar u.value) right, ts2)
        else Except.ok (ASTNode.NumberExpr n, u :: rest) := rfl

/-- Unfolding of parseExpressionTokens on the empty stream: the current
token is the END token, whose empty value makes stoi raise
invalid_argument. -/
theorem parseExpressionTokens_nil :
    parseExpressionTokens [] = Except.error ParseError.malformedExpression := rfl

/-- Unfolding of parseExpressionTokens on a one-token stream. -/
theorem parseExpressionTokens_single (t : Token) :
    parseExpressionTokens [t] =
      match stoiTok t.value with
      | Except.error e => Except.error e
      | Except.ok n => Except.ok (ASTNode.NumberExpr n, []) := rfl

/-- C1: chained binary expressions parse right-associatively. For any
number token values that stoi converts successfully, any two operator
tokens and any continuation that does not begin with an operator token,
the stream a op b op c parses to a op (b op c); instantiated at the input
1 + 2 + 3, the tree is BinaryExpr(1, plus, BinaryExpr(2, plus, 3)) and not
the left-associated shape. -/
theorem C1_parseExpression_right_associative :
    (∀ (va vb vc : String) (o1 o2 : Char) (a b c : Int) (rest : List Token),
      stoiTok va = Except.ok a → stoiTok vb = Except.ok b → stoiTok vc = Except.ok c →
      (currentTok rest).type ≠ TokenType.OPERATOR →
      parseExpressionTokens
        (⟨TokenType.NUMBER, va⟩ :: ⟨TokenType.OPERATOR, String.mk [o1]⟩ ::
         ⟨TokenType.NUMBER, vb⟩ :: ⟨TokenType.OPERATOR, String.mk [o2]⟩ ::
         ⟨TokenType.NUMBER, vc⟩ :: rest)
        = Except.ok (ASTNode.BinaryExpr (ASTNode.NumberExpr a) o1
            (ASTNode.BinaryExpr (ASTNode.NumberExpr b) o2 (ASTNode.NumberExpr c)), rest)) ∧
    parseExpressionTokens
        [⟨TokenType.NUMBER, "1"⟩, ⟨TokenType.OPERATOR, "+"⟩, ⟨TokenType.NUMBER, "2"⟩,
         ⟨TokenType.OPERATOR, "+"⟩, ⟨TokenType.NUMBER, "3"⟩]
      = Except.ok (ASTNode.BinaryExpr (ASTNode.NumberExpr 1) '+'
          (ASTNode.BinaryExpr (ASTNode.NumberExpr 2) '+' (ASTNode.NumberExpr 3)), []) := by
  constructor
  · intro va vb vc o1 o2 a b c rest hva hvb hvc hrest
    have hh2 : headChar (String.mk [o2]) = o2 := rfl
    have hh1 : headChar (String.mk [o1]) = o1 := rfl
    have h3 : parseExpressionTokens (⟨TokenType.NUMBER, vc⟩ :: rest)
        = Except.ok (ASTNode.NumberExpr c, rest) := by
      cases rest with
      | nil =>
        rw [parseExpressionTokens_single, hvc]
      | cons r rs =>
        simp only [currentTok] at hrest
        rw [parseExpressionTokens_cons_cons, hvc]
        simp [hrest]
    have h2 : parseExpressionTokens
        (⟨TokenType.NUMBER, vb⟩ :: ⟨TokenType.OPERATOR, String.mk [o2]⟩ ::
         ⟨TokenType.NUMBER, vc⟩ :: rest)
        = Except.ok (ASTNode.BinaryExpr (ASTNode.NumberExpr b) o2 (ASTNode.NumberExpr c), rest) := by
      rw [parseExpressionTokens_cons_cons, hvb]
      simp [h3, hh2]
    rw [parseExpressionTokens_cons_cons, hva]
    simp [h2, hh1]
  · rfl

/-- A right-leaning spine: every node is a NumberLiteral or a BinaryExpr
whose left child is a NumberLiteral, so a BinaryExpr never occurs as a left
child and every leaf is a NumberLiteral. -/
def isRightSpine : ASTNode → Bool
  | ASTNode.NumberExpr _ => true
  | ASTNode.BinaryExpr (ASTNode.NumberExpr _) _ r => isRightSpine r
  | _ => false

theorem rightSpine_aux :
    ∀ (N : Nat) (ts : List Token), ts.length ≤ N → ∀ (ast : ASTNode) (rest : List Token),
      parseExpressionTokens ts = Except.ok (ast, rest) → isRightSpine ast = true := by
  intro N
  induction N with
  | zero =>
    intro ts hlen ast rest h
    have hts : ts = [] := List.eq_nil_of_length_eq_zero (by omega)
    subst hts
    rw [parseExpressionTokens_nil] at h
    simp at h
  | succ N ih =>
    intro ts hlen ast rest h
    match ts with
    | [] =>
      rw [parseExpressionTokens_nil] at h
      simp at h
    | [t] =>
      rw [parseExpressionTokens_single] at h
      split at h
      · simp at h
      · simp only [Except.ok.injEq, Prod.mk.injEq] at h
        rw [← h.1]
        rfl
    | t :: u :: rest2 =>
      rw [parseExpressionTokens_cons_cons] at h
      split at h
      · simp at h
      · split at h
        · split at h
          · simp at h
          · rename_i hrec
            simp only [Except.ok.injEq, Prod.mk.injEq] at h
            have hspine := ih rest2 (by simp only [List.length_cons] at hlen; omega) _ _ hrec
            rw [← h.1]
            simpa [isRightSpine] using hspine
        · simp only [Except.ok.injEq, Prod.mk.injEq] at h
          rw [← h.1]
          rfl

/-- C8: every AST the expression parser returns, on any token stream, is a
right-leaning spine: the left child of every BinaryExpr is a NumberLiteral
and every leaf is a NumberLiteral. -/
theorem C8_parseExpression_right_spine (ts : List Token) (ast : ASTNode) (rest : List Token)
    (h : parseExpressionTokens ts = Except.ok (ast, rest)) : isRightSpine ast = true :=
  rightSpine_aux ts.length ts le_rfl ast rest h

/-- C8 witness: the spine shape evaluated on the parse of 7 + 8. -/
theorem C8_parseExpression_right_spine_witness :
    isRightSpine (ASTNode.BinaryExpr (ASTNode.NumberExpr 7) '+' (ASTNode.NumberExpr 8)) = true :=
  C8_parseExpression_right_spine
    [⟨TokenType.NUMBER, "7"⟩, ⟨TokenType.OPERATOR, "+"⟩, ⟨TokenType.NUMBER, "8"⟩]
    (ASTNode.BinaryExpr (ASTNode.NumberExpr 7) '+' (ASTNode.NumberExpr 8)) [] rfl

theorem not_space_of_digit (c : Char) (h : isdigitC c = true) : isspaceC c = false := by
  simp only [isdigitC, Bool.and_eq_true, decide_eq_true_eq] at h
  simp only [isspaceC, Bool.or_eq_false_iff, Bool.and_eq_false_iff, decide_eq_false_iff_not]
  omega

theorem not_space_of_alpha (c : Char) (h : isalphaC c = true) : isspaceC c = false := by
  simp only [isalphaC, Bool.or_eq_true, Bool.and_eq_true, decide_eq_true_eq] at h
  simp only [isspaceC, Bool.or_eq_false_iff, Bool.and_eq_false_iff, decide_eq_false_iff_not]
  omega

theorem not_digit_of_alpha (c : Char) (h : isalphaC c = true) : isdigitC c = false := by
  simp only [isalphaC, Bool.or_eq_true, Bool.and_eq_true, decide_eq_true_eq] at h
  simp only [isdigitC, Bool.and_eq_false_iff, decide_eq_false_iff_not]
  omega

theorem not_digit_of_space (c : Char) (h : isspaceC c = true) : isdigitC c = false := by
  simp only [isspaceC, Bool.or_eq_true, Bool.and_eq_true, decide_eq_true_eq] at h
  simp only [isdigitC, Bool.and_eq_false_iff, decide_eq_false_iff_not]
  omega

theorem alpha_ne_plus (c : Char) (h : isalphaC c = true) : c ≠ '+' := by
  intro hc
  rw [hc] at h
  exact absurd h (by decide)

theorem alpha_ne_minus (c : Char) (h : isalphaC c = true) : c ≠ '-' := by
  intro hc
  rw [hc] at h
  exact absurd h (by decide)

theorem digit_ne_plus (c : Char) (h : isdigitC c = true) : c ≠ '+' := by
  intro hc
  rw [hc] at h
  exact absurd h (by decide)

theorem digit_ne_minus (c : Char) (h : isdigitC c = true) : c ≠ '-' := by
  intro hc
  rw [hc] at h
  exact absurd h (by decide)

/-- stoi raises invalid_argument on any token value that starts with a
letter: no sign is consumed and the digit run is empty. -/
theorem stoiTok_alpha_head (c : Char) (cs : List Char) (h : isalphaC c = true) :
    stoiTok (String.mk (c :: cs)) = Except.error ParseError.malformedExpression := by
  unfold stoiTok
  have htl : (String.mk (c :: cs)).toList = c :: cs := rfl
  rw [htl]
  rw [List.dropWhile_cons_of_neg (by simp [not_space_of_alpha c h])]
  simp only [signSplit, if_neg (alpha_ne_plus c h), if_neg (alpha_ne_minus c h)]
  rw [List.takeWhile_cons_of_neg (by simp [not_digit_of_alpha c h])]
  rfl

/-- When a scanner call returns a token that is not a NUMBER token, stoi on
its value raises invalid_argument: the value is empty, a keyword or
identifier starting with a letter, a lone sign or arithmetic character, or
a single symbol character. -/
theorem getNextTokenR_stoi_fails (s : List Char) (p : Nat)
    (h : (Lexer.getNextTokenR s p).1.type ≠ TokenType.NUMBER) :
    stoiTok (Lexer.getNextTokenR s p).1.value = Except.error ParseError.malformedExpression := by
  rcases (getNextTokenR_master s p).2 with h1 | h1 | h1 | h1 | h1 | h1 | h1 | h1 | h1 | h1 | h1
  · rw [h1.2]; rfl
  · exact absurd h1 h
  · rw [h1.2]; rfl
  · rw [h1.2]; rfl
  · obtain ⟨_, c, cs, hv, hc⟩ := h1
    rw [hv]
    exact stoiTok_alpha_head c cs hc
  · obtain ⟨_, ⟨c, hv, hc⟩, _⟩ := h1
    rw [hv]
    rcases hc with rfl | rfl | rfl | rfl <;> rfl
  · rw [h1.2]; rfl
  · rw [h1.2]; rfl
  · rw [h1.2]; rfl
  · rw [h1.2]; rfl
  · rw [h1.2]; rfl

/-- C3: whenever the first token the parser pulls from the scanner is not a
NUMBER token, for any source string and starting position, parseExpression
fails with the MalformedExpression condition (the recoverable
std::invalid_argument raised by stoi on the non-numeric token value) and in
particular returns instead of crashing. -/
theorem C3_nonnumber_first_token_fails (src : List Char) (q : Nat)
    (h : (Parser.init ⟨src, q⟩).currentToken.type ≠ TokenType.NUMBER) :
    Parser.parseExpression (Parser.init ⟨src, q⟩)
      = Except.error ParseError.malformedExpression := by
  have hs : stoiTok (Parser.init ⟨src, q⟩).currentToken.value
      = Except.error ParseError.malformedExpression := getNextTokenR_stoi_fails src q h
  rw [Parser.parseExpression.eq_def, hs]

/-- C3 witness: the parser fails with MalformedExpression on the source
( 5 ) whose first token is ParenOpen, and on the empty source whose first
token is EndOfInput. -/
theorem C3_nonnumber_first_token_fails_witness :
    Parser.parseExpression (Parser.init ⟨['(', ' ', '5', ' ', ')'], 0⟩)
        = Except.error ParseError.malformedExpression ∧
    Parser.parseExpression (Parser.init ⟨[], 0⟩)
        = Except.error ParseError.malformedExpression :=
  ⟨C3_nonnumber_first_token_fails ['(', ' ', '5', ' ', ')'] 0 (by decide),
   C3_nonnumber_first_token_fails [] 0 (by decide)⟩

/-- The greedy scanning loop consumes exactly a run on which the predicate
holds when the following character (or the null terminator at end of
input) fails it. -/
theorem scanAux_run (q : Char → Bool) (run post : List Char) (pos : Nat)
    (hrun : ∀ d ∈ run, q d = true) (hpost : q (post.headD '\x00') = false) :
    (scanAux q (run ++ post) pos).1 = run ∧
    (scanAux q (run ++ post) pos).2.1 = pos + run.length := by
  induction run generalizing pos with
  | nil =>
    cases post with
    | nil => simp [scanAux]
    | cons d ds =>
      simp only [List.headD] at hpost
      simp [scanAux, hpost]
  | cons d ds ih =>
    have hd := hrun d (by simp)
    have hih := ih (pos + 1) (fun x hx => hrun x (List.mem_cons_of_mem d hx))
    simp only [List.cons_append, scanAux, hd, if_true, List.append_eq]
    refine ⟨by rw [hih.1], ?_⟩
    rw [hih.2]
    simp only [List.length_cons]
    omega

/-- The whitespace-skipping loop advances exactly over a whitespace run
when the following character (or the end of input) is not whitespace. -/
theorem skipWSAux_run (ws post : List Char) (pos : Nat)
    (hws : ∀ c ∈ ws, isspaceC c = true) (hpost : isspaceC (post.headD '\x00') = false) :
    (skipWSAux (ws ++ post) pos).1 = pos + ws.length := by
  induction ws generalizing pos with
  | nil =>
    cases post with
    | nil => simp [skipWSAux]
    | cons d ds =>
      simp only [List.headD] at hpost
      simp [skipWSAux, hpost]
  | cons c cs ih =>
    have hc := hws c (by simp)
    have hih := ih (pos + 1) (fun x hx => hws x (List.mem_cons_of_mem c hx))
    simp only [List.cons_append, skipWSAux, hc, if_true, List.append_eq]
    rw [hih]
    simp only [List.length_cons]
    omega

/-- A scanner call landing exactly at a maximal letters-or-digits run that
starts with a letter consumes the whole run, resolves it against the
keyword table (int and return) and advances to the end of the run. -/
theorem getNextTokenR_alpha_run (pre run rest : List Char) (c : Char) (cs : List Char)
    (hrun : run = c :: cs) (hc : isalphaC c = true)
    (hall : ∀ d ∈ run, isalnumC d = true)
    (hrest : isalnumC (rest.headD '\x00') = false) :
    (Lexer.getNextTokenR (pre ++ run ++ rest) pre.length).1 =
      ⟨if String.mk run = "int" then TokenType.INT
        else if String.mk run = "return" then TokenType.RETURN
        else TokenType.IDENTIFIER, String.mk run⟩ ∧
    (Lexer.getNextTokenR (pre ++ run ++ rest) pre.length).2.1
      = pre.length + run.length := by
  subst hrun
  have hdrop : (pre ++ (c :: cs) ++ rest).drop pre.length = c :: (cs ++ rest) := by
    rw [List.append_assoc, List.drop_left]
    rfl
  have hnspace : isspaceC c = false := not_space_of_alpha c hc
  have hws : skipWSAux (c :: (cs ++ rest)) pre.length = (pre.length, [pre.length]) := by
    simp [skipWSAux, hnspace]
  have hndigit : isdigitC c = false := not_digit_of_alpha c hc
  have hscan := scanAux_run isalnumC (c :: cs) rest pre.length hall hrest
  simp only [List.cons_append] at hscan
  unfold Lexer.getNextTokenR
  dsimp only
  rw [hdrop, hws]
  dsimp only
  rw [hdrop]
  dsimp only
  rw [hndigit, hc]
  simp only [Bool.false_eq_true, if_false, if_true]
  rw [hscan.1, hscan.2]
  constructor
  · split_ifs <;> rfl
  · split_ifs <;> simp [List.length_cons]

/-- The scanner never produces an IF, WHILE or ELSE token: those kinds are
declared but absent from the keyword table of Lexer::getNextToken. -/
theorem lexer_never_control (s : List Char) (p : Nat) :
    (Lexer.getNextTokenR s p).1.type ≠ TokenType.IF ∧
    (Lexer.getNextTokenR s p).1.type ≠ TokenType.WHILE ∧
    (Lexer.getNextTokenR s p).1.type ≠ TokenType.ELSE := by
  refine ⟨?_, ?_, ?_⟩ <;>
    (intro hE
     rcases (getNextTokenR_master s p).2 with h1 | h1 | h1 | h1 | h1 | h1 | h1 | h1 | h1 | h1 | h1 <;>
       (rw [hE] at h1; simp at h1))

/-- C4: every maximal letters-or-digits run starting with a letter is
resolved against exactly the keyword set consisting of int and return,
producing an INT or RETURN token respectively and a plain IDENTIFIER token
for every other word; and for no input and position does the scanner
produce a token of kind IF, WHILE or ELSE. -/
theorem C4_keyword_table :
    (∀ (s : List Char) (p : Nat),
      (Lexer.getNextTokenR s p).1.type ≠ TokenType.IF ∧
      (Lexer.getNextTokenR s p).1.type ≠ TokenType.WHILE ∧
      (Lexer.getNextTokenR s p).1.type ≠ TokenType.ELSE) ∧
    (∀ (pre rest : List Char) (c : Char) (cs : List Char),
      isalphaC c = true → (∀ d ∈ c :: cs, isalnumC d = true) →
      isalnumC (rest.headD '\x00') = false →
      (Lexer.getNextTokenR (pre ++ (c :: cs) ++ rest) pre.length).1 =
        ⟨if String.mk (c :: cs) = "int" then TokenType.INT
          else if String.mk (c :: cs) = "return" then TokenType.RETURN
          else TokenType.IDENTIFIER, String.mk (c :: cs)⟩ ∧
      (Lexer.getNextTokenR (pre ++ (c :: cs) ++ rest) pre.length).2.1
        = pre.length + (c :: cs).length) :=
  ⟨lexer_never_control, fun pre rest c cs hc hall hrest =>
    getNextTokenR_alpha_run pre (c :: cs) rest c cs rfl hc hall hrest⟩

/-- C4 witness: the word while is scanned as a plain identifier, the word
int as the INT keyword, each consuming the full run. -/
theorem C4_keyword_table_witness :
    (Lexer.getNextTokenR ['w', 'h', 'i', 'l', 'e'] 0).1 = ⟨TokenType.IDENTIFIER, "while"⟩ ∧
    (Lexer.getNextTokenR ['i', 'n', 't'] 0).1 = ⟨TokenType.INT, "int"⟩ := by
  have h1 := (C4_keyword_table.2 [] [] 'w' ['h', 'i', 'l', 'e']
    (by decide) (by decide) (by decide)).1
  have h2 := (C4_keyword_table.2 [] [] 'i' ['n', 't']
    (by decide) (by decide) (by decide)).1
  simp only [List.nil_append, List.append_nil, List.length_nil] at h1 h2
  refine ⟨?_, ?_⟩
  · rw [h1]; decide
  · rw [h2]; decide

/-- A parser state as the scanner produces it: its lookahead token and
lexer position are the result of some getNextToken call on its source.
Parser.init and every advance produce only such states. -/
def Parser.fromLexer (p : Parser) : Prop :=
  ∃ q : Nat, p = Parser.init ⟨p.lexer.source, q⟩

theorem Parser.pull_fromLexer (p : Parser) : (Parser.pull p).fromLexer :=
  ⟨p.lexer.pos, rfl⟩

theorem parseExpression_state (N : Nat) :
    ∀ (p : Parser), p.lexer.source.length - p.lexer.pos ≤ N →
    ∀ (ast : ASTNode) (p2 : Parser), Parser.parseExpression p = Except.ok (ast, p2) →
      Parser.fromLexer p2 ∧ p2.lexer.source = p.lexer.source := by
  induction N with
  | zero =>
    intro p hm ast p2 h
    rw [Parser.parseExpression.eq_def] at h
    split at h
    · simp at h
    · split at h
      · rename_i n hop
        exact absurd (Parser.pull_operator p hop).1 (by omega)
      · simp only [Except.ok.injEq, Prod.mk.injEq] at h
        rw [← h.2]
        exact ⟨Parser.pull_fromLexer p, rfl⟩
  | succ N ih =>
    intro p hm ast p2 h
    rw [Parser.parseExpression.eq_def] at h
    split at h
    · simp at h
    · split at h
      · rename_i n hop
        split at h
        · simp at h
        · rename_i right p3 heq
          simp only [Except.ok.injEq, Prod.mk.injEq] at h
          have hlt := Parser.pull_operator p hop
          have hle := Parser.pull_pos_le (Parser.pull p)
          have hsrc : (Parser.pull (Parser.pull p)).lexer.source = p.lexer.source := rfl
          have hm2 : (Parser.pull (Parser.pull p)).lexer.source.length
              - (Parser.pull (Parser.pull p)).lexer.pos ≤ N := by
            rw [hsrc]
            omega
          have hres := ih (Parser.pull (Parser.pull p)) hm2 right p3 heq
          rw [← h.2]
          exact ⟨hres.1, hres.2.trans hsrc⟩
      · simp only [Except.ok.injEq, Prod.mk.injEq] at h
        rw [← h.2]
        exact ⟨Parser.pull_fromLexer p, rfl⟩

/-- Every successful parseExpression leaves the parser in a state the
scanner produced, over the same source. -/
theorem parseExpression_result_fromLexer (p : Parser) (ast : ASTNode) (p2 : Parser)
    (h : Parser.parseExpression p = Except.ok (ast, p2)) :
    Parser.fromLexer p2 ∧ p2.lexer.source = p.lexer.source :=
  parseExpression_state (p.lexer.source.length - p.lexer.pos) p le_rfl ast p2 h

theorem fromLexer_not_else (p : Parser) (hf : Parser.fromLexer p) :
    p.currentToken.type ≠ TokenType.ELSE := by
  obtain ⟨q, hq⟩ := hf
  rw [hq]
  exact (lexer_never_control p.lexer.source q).2.2

/-- C9: when parseIfStatement is driven by the scanner on any source and
starting position and returns successfully, the IfStatement it builds has
no else branch: the scanner never emits an ELSE token, so the else check
never fires. -/
theorem C9_if_statement_has_no_else (src : List Char) (q : Nat) (ast : ASTNode) (p2 : Parser)
    (h : Parser.parseIfStatement (Parser.init ⟨src, q⟩) = Except.ok (ast, p2)) :
    ∃ condition thenBranch, ast = ASTNode.IfStatement condition thenBranch none := by
  unfold Parser.parseIfStatement at h
  split at h
  · simp at h
  · rename_i condition p2c heq1
    split at h
    · simp at h
    · rename_i thenB p4 heq2
      have h4 := parseExpression_result_fromLexer _ _ _ heq2
      have hne : p4.currentToken.type ≠ TokenType.ELSE := fromLexer_not_else p4 h4.1
      rw [if_neg hne] at h
      simp only [Except.ok.injEq, Prod.mk.injEq] at h
      exact ⟨condition, thenB, h.1.symm⟩

/-- C9 witness: on the source if 1 2 3 the if parser succeeds and the tree
carries no else branch. -/
theorem C9_if_statement_has_no_else_witness :
    Parser.parseIfStatement (Parser.init ⟨['i', 'f', ' ', '1', ' ', '2', ' ', '3'], 0⟩)
      = Except.ok (ASTNode.IfStatement (ASTNode.NumberExpr 1) (ASTNode.NumberExpr 3) none,
          ⟨⟨['i', 'f', ' ', '1', ' ', '2', ' ', '3'], 8⟩, ⟨TokenType.END, ""⟩⟩) ∧
    (∃ condition thenBranch,
      ASTNode.IfStatement (ASTNode.NumberExpr 1) (ASTNode.NumberExpr 3) none
        = ASTNode.IfStatement condition thenBranch none) := by
  have e1 : Parser.parseExpression
      (Parser.pull (Parser.init ⟨['i', 'f', ' ', '1', ' ', '2', ' ', '3'], 0⟩))
      = Except.ok (ASTNode.NumberExpr 1,
          ⟨⟨['i', 'f', ' ', '1', ' ', '2', ' ', '3'], 6⟩, ⟨TokenType.NUMBER, "2"⟩⟩) := by
    rw [Parser.parseExpression.eq_def]
    rfl
  have e2 : Parser.parseExpression
      (Parser.pull (⟨⟨['i', 'f', ' ', '1', ' ', '2', ' ', '3'], 6⟩, ⟨TokenType.NUMBER, "2"⟩⟩ : Parser))
      = Except.ok (ASTNode.NumberExpr 3,
          ⟨⟨['i', 'f', ' ', '1', ' ', '2', ' ', '3'], 8⟩, ⟨TokenType.END, ""⟩⟩) := by
    rw [Parser.parseExpression.eq_def]
    rfl
  have hEval : Parser.parseIfStatement (Parser.init ⟨['i', 'f', ' ', '1', ' ', '2', ' ', '3'], 0⟩)
      = Except.ok (ASTNode.IfStatement (ASTNode.NumberExpr 1) (ASTNode.NumberExpr 3) none,
          ⟨⟨['i', 'f', ' ', '1', ' ', '2', ' ', '3'], 8⟩, ⟨TokenType.END, ""⟩⟩) := by
    unfold Parser.parseIfStatement
    rw [e1]
    dsimp only
    rw [e2]
    rfl
  exact ⟨hEval, C9_if_statement_has_no_else _ 0 _ _ hEval⟩

theorem takeWhile_all {p : Char → Bool} : ∀ (l : List Char), (∀ x ∈ l, p x = true) →
    l.takeWhile p = l := by
  intro l h
  induction l with
  | nil => rfl
  | cons a as ih =>
    rw [List.takeWhile_cons_of_pos (h a (by simp))]
    rw [ih (fun x hx => h x (List.mem_cons_of_mem a hx))]

/-- stoi converts a pure digit run to its decimal value when that value
fits in int. -/
theorem stoiTok_digits (d : Char) (ds' : List Char)
    (hall : ∀ x ∈ d :: ds', isdigitC x = true)
    (hbound : (digitsVal (d :: ds') : Int) ≤ 2147483647) :
    stoiTok (String.mk (d :: ds')) = Except.ok ((digitsVal (d :: ds') : Int)) := by
  have hd := hall d (by simp)
  unfold stoiTok
  have htl : (String.mk (d :: ds')).toList = d :: ds' := rfl
  rw [htl]
  rw [List.dropWhile_cons_of_neg (by simp [not_space_of_digit d hd])]
  simp only [signSplit, if_neg (digit_ne_plus d hd), if_neg (digit_ne_minus d hd)]
  rw [takeWhile_all (d :: ds') hall]
  rw [if_neg (by simp)]
  rw [if_neg (by simp only [one_mul]; omega)]
  rw [one_mul]


/-- A scanner call on whitespace followed by a maximal digit run produces
the NUMBER token holding exactly the run and stops right after it. -/
theorem getNextTokenR_ws_digit (ws rest : List Char) (d : Char) (ds' : List Char)
    (hws : ∀ c ∈ ws, isspaceC c = true)
    (hd : ∀ x ∈ d :: ds', isdigitC x = true)
    (hrest : isdigitC (rest.headD '\x00') = false) :
    (Lexer.getNextTokenR (ws ++ (d :: ds') ++ rest) 0).1
      = ⟨TokenType.NUMBER, String.mk (d :: ds')⟩ ∧
    (Lexer.getNextTokenR (ws ++ (d :: ds') ++ rest) 0).2.1
      = ws.length + (d :: ds').length := by
  have hd0 := hd d (by simp)
  have hdrop0 : (ws ++ (d :: ds') ++ rest).drop 0 = ws ++ ((d :: ds') ++ rest) := by
    rw [List.drop_zero, List.append_assoc]
  have hwsrun : (skipWSAux (ws ++ ((d :: ds') ++ rest)) 0).1 = ws.length := by
    have hr := skipWSAux_run ws ((d :: ds') ++ rest) 0 hws (by
      simp only [List.cons_append, List.headD]
      exact not_space_of_digit d hd0)
    simpa using hr
  have hdrop1 : (ws ++ (d :: ds') ++ rest).drop ws.length = d :: (ds' ++ rest) := by
    rw [List.append_assoc, List.drop_left]
    rfl
  have hscan := scanAux_run isdigitC (d :: ds') rest ws.length hd hrest
  simp only [List.cons_append] at hscan
  unfold Lexer.getNextTokenR
  dsimp only
  rw [hdrop0, hwsrun, hdrop1]
  dsimp only
  rw [hd0]
  simp only [if_true]
  rw [hscan.1, hscan.2]
  exact ⟨rfl, rfl⟩

/-- A scanner call at a position followed only by whitespace skips to the
end of the input and returns the END token. -/
theorem getNextTokenR_ws_end (pre ws : List Char) (hws : ∀ c ∈ ws, isspaceC c = true) :
    (Lexer.getNextTokenR (pre ++ ws) pre.length).1 = ⟨TokenType.END, ""⟩ ∧
    (Lexer.getNextTokenR (pre ++ ws) pre.length).2.1 = pre.length + ws.length := by
  have hdrop : (pre ++ ws).drop pre.length = ws := List.drop_left pre ws
  have hskip : (skipWSAux ws pre.length).1 = pre.length + ws.length := by
    have hr := skipWSAux_run ws [] pre.length hws (by decide)
    simpa using hr
  have hdrop2 : (pre ++ ws).drop (pre.length + ws.length) = [] := by
    apply List.drop_eq_nil_of_le
    simp [List.length_append]
  unfold Lexer.getNextTokenR
  dsimp only
  rw [hdrop, hskip, hdrop2]
  exact ⟨rfl, rfl⟩

/-- C6 as amended: for every source that is a single maximal digit run,
possibly surrounded by whitespace, whose decimal value fits in int (at
most 2147483647), parseExpression returns a bare NumberLiteral holding
that value, with no BinaryExpr wrapper. The bound is forced by stoi, which
raises std::out_of_range for larger literals. -/
theorem C6_single_number_parses (ws1 ws2 : List Char) (d : Char) (ds' : List Char)
    (h1 : ∀ c ∈ ws1, isspaceC c = true) (h2 : ∀ c ∈ ws2, isspaceC c = true)
    (hall : ∀ x ∈ d :: ds', isdigitC x = true)
    (hbound : (digitsVal (d :: ds') : Int) ≤ 2147483647) :
    ∃ p2 : Parser,
      Parser.parseExpression (Parser.init ⟨ws1 ++ (d :: ds') ++ ws2, 0⟩)
        = Except.ok (ASTNode.NumberExpr ((digitsVal (d :: ds') : Int)), p2) := by
  have hrest : isdigitC (ws2.headD '\x00') = false := by
    cases ws2 with
    | nil => decide
    | cons w ws2t => exact not_digit_of_space w (h2 w (by simp))
  have hA := getNextTokenR_ws_digit ws1 ws2 d ds' h1 hall hrest
  have hinit : Parser.init ⟨ws1 ++ (d :: ds') ++ ws2, 0⟩
      = ⟨⟨ws1 ++ (d :: ds') ++ ws2, ws1.length + (d :: ds').length⟩,
         ⟨TokenType.NUMBER, String.mk (d :: ds')⟩⟩ := by
    unfold Parser.init Lexer.getNextToken
    dsimp only
    rw [hA.1, hA.2]
  have hstoi := stoiTok_digits d ds' hall hbound
  have hB := getNextTokenR_ws_end (ws1 ++ (d :: ds')) ws2 h2
  have hlen : (ws1 ++ (d :: ds')).length = ws1.length + (d :: ds').length :=
    List.length_append _ _
  rw [hlen] at hB
  have hcond : (Parser.pull ⟨⟨ws1 ++ (d :: ds') ++ ws2, ws1.length + (d :: ds').length⟩,
      ⟨TokenType.NUMBER, String.mk (d :: ds')⟩⟩).currentToken.type ≠ TokenType.OPERATOR := by
    show (Lexer.getNextTokenR (ws1 ++ (d :: ds') ++ ws2)
      (ws1.length + (d :: ds').length)).1.type ≠ _
    rw [hB.1]
    simp
  refine ⟨Parser.pull ⟨⟨ws1 ++ (d :: ds') ++ ws2, ws1.length + (d :: ds').length⟩,
    ⟨TokenType.NUMBER, String.mk (d :: ds')⟩⟩, ?_⟩
  rw [hinit, Parser.parseExpression.eq_def]
  dsimp only
  rw [hstoi]
  dsimp only
  rw [dif_neg hcond]

/-- C6 counterexample: the claim as stated fails at the single numeric
literal 2147483648, one past the largest int: the scan yields that literal
as one NUMBER token but stoi raises std::out_of_range, so parseExpression
produces no NumberLiteral for it. -/
theorem C6_overflow_refutes_claim :
    Parser.parseExpression
      (Parser.init ⟨['2', '1', '4', '7', '4', '8', '3', '6', '4', '8'], 0⟩)
      = Except.error ParseError.outOfRange := by
  rw [Parser.parseExpression.eq_def]
  rfl

/-- C6 witness: the source consisting of 42 surrounded by one space on each
side parses to the bare NumberLiteral 42. -/
theorem C6_single_number_parses_witness :
    ∃ p2 : Parser,
      Parser.parseExpression (Parser.init ⟨[' ', '4', '2', ' '], 0⟩)
        = Except.ok (ASTNode.NumberExpr ((digitsVal ['4', '2'] : Int)), p2) :=
  C6_single_number_parses [' '] [' '] '4' ['2']
    (by decide) (by decide) (by decide) (by decide)

/-- C1 witness: the stream 4 * 5 - 6 parses right-associatively to
4 * (5 - 6). -/
theorem C1_parseExpression_right_associative_witness :
    parseExpressionTokens
      (⟨TokenType.NUMBER, "4"⟩ :: ⟨TokenType.OPERATOR, String.mk ['*']⟩ ::
       ⟨TokenType.NUMBER, "5"⟩ :: ⟨TokenType.OPERATOR, String.mk ['-']⟩ ::
       ⟨TokenType.NUMBER, "6"⟩ :: ([] : List Token))
      = Except.ok (ASTNode.BinaryExpr (ASTNode.NumberExpr 4) '*'
          (ASTNode.BinaryExpr (ASTNode.NumberExpr 5) '-' (ASTNode.NumberExpr 6)), []) :=
  C1_parseExpression_right_associative.1 "4" "5" "6" '*' '-' 4 5 6 []
    rfl rfl rfl (by decide)
